import Mathlib

/-! Verification of the ranking logic of the NoryaBackend server (server.js).

The server's only non-trivial computation is the handler of
GET /api/top-characters: it decorates each CSV row with two numeric sort
keys obtained by parseFloat (NaN coerced to 0), sorts the rows descending
by the primary key and, on ties, by the secondary key, takes the first
five rows, and strips the transient key fields again.

Modelling choices, stated once here:
- JS numbers are modelled as rationals.  The IEEE-754 values Infinity and
  NaN are outside the model: the string "Infinity", which JS parseFloat
  accepts, is treated as unparsable, and NaN never reaches the comparator
  because the code replaces it by 0 before sorting.
- A JS object is an ordered list of fields with (in practice) unique
  keys; the spread and rest operators of the code are modelled by the
  update-in-place-or-append function setField and by filtering.
- Array.prototype.sort with a consistent comparator is, since ES2019, a
  stable sort; any stable sort agrees with insertion sort, so the model
  uses List.insertionSort with the relation "comparator result is <= 0".
-/

namespace Norya

open List

/-- A JS field value: a CSV cell string, or one of the transient numeric
sort keys.  Numbers are modelled as rationals. -/
inductive JVal where
  | str (s : String)
  | num (q : ℚ)
deriving DecidableEq

/-- A JS object as produced and consumed by the handler: an ordered list
of named fields. -/
abbrev Obj := List (String × JVal)

/-- A parsed CSV row as returned by Papa.parse with a header row: every
field value is a string. -/
abbrev Record := List (String × String)

/-- View a raw CSV row as a JS object. -/
def toObj (r : Record) : Obj := r.map (fun p => (p.1, JVal.str p.2))

/-- Property read on an object (row[key]): the first field with the given
name, none when the field is absent (JS: undefined). -/
def Obj.get? : Obj → String → Option JVal
  | [], _ => none
  | p :: t, k => if p.1 == k then some p.2 else Obj.get? t k

/-- Property read on a raw CSV row. -/
def Record.get? : Record → String → Option String
  | [], _ => none
  | p :: t, k => if p.1 == k then some p.2 else Record.get? t k

/-- Whether an object already owns a field of the given name. -/
def containsKey (o : Obj) (k : String) : Bool := o.any (fun p => p.1 == k)

/-- Replace the value of every field of the given name, keeping its
position (JS objects never hold the name twice, so this is the update of
the one owned field). -/
def replaceField : Obj → String → JVal → Obj
  | [], _, _ => []
  | p :: t, k, v => (if p.1 == k then (k, v) else p) :: replaceField t k v

/-- The JS spread update (the object spread in the code writes row's
fields first and then the two key fields): when the key already exists
its value is replaced at its original position, otherwise the field is
appended at the end. -/
def setField (o : Obj) (k : String) (v : JVal) : Obj :=
  if containsKey o k then replaceField o k v else o ++ [(k, v)]

/-- Whitespace skipped by JS parseFloat (the common representatives of
StrWhiteSpace), identified by code point. -/
def isSpaceChar (c : Char) : Bool :=
  c.toNat == 32 || c.toNat == 9 || c.toNat == 10 || c.toNat == 13 ||
  c.toNat == 11 || c.toNat == 12 || c.toNat == 0xa0 || c.toNat == 0xfeff

/-- An ASCII decimal digit, the only digits of the JS numeric grammar. -/
def isDigitChar (c : Char) : Bool := 48 ≤ c.toNat && c.toNat ≤ 57

/-- Does the character list start with the given character? -/
def headIs (cs : List Char) (c : Char) : Bool :=
  match cs with
  | d :: _ => d == c
  | [] => false

/-- Numeric value of a decimal digit character. -/
def digitVal (c : Char) : ℕ := c.toNat - 48

/-- Numeric value of a string of decimal digits. -/
def digitsVal (ds : List Char) : ℕ := ds.foldl (fun a c => a * 10 + digitVal c) 0

/-- Value of an exponent digit run: 0 when there is no digit (in which
case JS parseFloat does not consume the exponent marker at all). -/
def expDigits (cs : List Char) : ℤ :=
  if (cs.takeWhile isDigitChar).isEmpty then 0
  else (digitsVal (cs.takeWhile isDigitChar) : ℤ)

/-- The optional exponent part of a JS decimal literal, read from the
characters following the significand; anything that is not a complete
exponent contributes a factor of one. -/
def expPart (cs : List Char) : ℤ :=
  if headIs cs 'e' || headIs cs 'E' then
    if headIs cs.tail '+' then expDigits cs.tail.tail
    else if headIs cs.tail '-' then - expDigits cs.tail.tail
    else expDigits cs.tail
  else 0

/-- Assemble the value of a decimal literal from its integer digits and
what follows them: an optional fraction introduced by a dot, then an
optional exponent; none when the literal has no digit at all. -/
def buildNum (intd r1 : List Char) : Option ℚ :=
  if headIs r1 '.' then
    if intd.isEmpty && (r1.tail.takeWhile isDigitChar).isEmpty then none
    else some (((digitsVal intd : ℚ) +
        (digitsVal (r1.tail.takeWhile isDigitChar) : ℚ) /
          (10 : ℚ) ^ (r1.tail.takeWhile isDigitChar).length)
      * (10 : ℚ) ^ expPart (r1.tail.dropWhile isDigitChar))
  else
    if intd.isEmpty then none
    else some ((digitsVal intd : ℚ) * (10 : ℚ) ^ expPart r1)

/-- The unsigned part of JS parseFloat: longest prefix of the form
digits [. digits] [exponent], requiring at least one digit before or
after the decimal point; none when there is no such prefix (JS: NaN). -/
def parseUnsigned (cs : List Char) : Option ℚ :=
  buildNum (cs.takeWhile isDigitChar) (cs.dropWhile isDigitChar)

/-- The optional sign in front of the decimal literal. -/
def parseSigned (cs : List Char) : Option ℚ :=
  if headIs cs '-' then (parseUnsigned cs.tail).map (fun q => -q)
  else if headIs cs '+' then parseUnsigned cs.tail
  else parseUnsigned cs

/-- Model of JS parseFloat on a string: skip leading whitespace, read an
optional sign, then the longest decimal-literal prefix; none models NaN. -/
def parseFloat (s : String) : Option ℚ :=
  parseSigned (s.toList.dropWhile isSpaceChar)

/-- The total coercion applied by the handler to each sort field:
parseFloat of the field value, with an absent field (parseFloat of
undefined) and a failed parse (isNaN) both giving exactly 0. -/
def parseOrZero (v : Option String) : ℚ :=
  match v with
  | none => 0
  | some s =>
    match parseFloat s with
    | none => 0
    | some q => q

/-- Sign factor of an optional leading sign character: the minus sign
contributes minus one, a plus sign or no sign contributes one. -/
def signVal (sign : List Char) : ℚ := if sign = ['-'] then -1 else 1

/-- Value contributed by an optional fractional part, given as the dot
character followed by the fraction digits (empty when there is no dot):
the digits' value scaled under the decimal point. -/
def fracVal (df : List Char) : ℚ :=
  (digitsVal df.tail : ℚ) / (10 : ℚ) ^ df.tail.length

/-- The three ranking modes accepted as the type query parameter. -/
inductive Mode where
  | magic
  | physical
  | value
deriving DecidableEq

/-- Field-name constant MAGIC_KEY of server.js. -/
def MAGIC_KEY : String := "魔法攻擊"

/-- Field-name constant PHYSICAL_KEY of server.js. -/
def PHYSICAL_KEY : String := "物理攻擊"

/-- Field-name constant VALUE_KEY of server.js. -/
def VALUE_KEY : String := "價值"

/-- The primary sort field selected by the mode dispatch of the handler. -/
def primaryKey : Mode → String
  | .magic => MAGIC_KEY
  | .physical => PHYSICAL_KEY
  | .value => VALUE_KEY

/-- The secondary sort field selected by the mode dispatch of the handler. -/
def secondaryKey : Mode → String
  | .magic => VALUE_KEY
  | .physical => VALUE_KEY
  | .value => MAGIC_KEY

/-- The per-row decoration of the handler: compute the two coerced sort
keys from the raw row, then spread the row and write them into the
fields named two underscores primary and two underscores secondary. -/
def decorate (pk sk : String) (row : Record) : Obj :=
  let primaryVal := parseOrZero (Record.get? row pk)
  let secondaryVal := parseOrZero (Record.get? row sk)
  setField (setField (toObj row) "__primary" (JVal.num primaryVal))
    "__secondary" (JVal.num secondaryVal)

/-- Numeric property read used by the sort comparator (a.__primary and
friends); on a decorated row the field is always a number. -/
def numAt (o : Obj) (k : String) : ℚ :=
  match Obj.get? o k with
  | some (JVal.num q) => q
  | _ => 0

/-- The comparator passed to Array.prototype.sort: primary difference
when the primaries differ, secondary difference otherwise, both oriented
for a descending sort. -/
def jsCmp (a b : Obj) : ℚ :=
  if numAt b "__primary" ≠ numAt a "__primary" then
    numAt b "__primary" - numAt a "__primary"
  else numAt b "__secondary" - numAt a "__secondary"

/-- The "a may stay before b" relation of the sort: the comparator does
not require a swap. -/
def sortLE (a b : Obj) : Prop := jsCmp a b ≤ 0

instance : DecidableRel sortLE :=
  fun a b => inferInstanceAs (Decidable (jsCmp a b ≤ 0))

/-- The rest-destructuring at the end of the handler: drop the two
transient sort-key fields, keeping every other field in order. -/
def strip (o : Obj) : Obj :=
  o.filter (fun p => !(p.1 == "__primary") && !(p.1 == "__secondary"))

/-- The array named mapped in the handler: every fetched row decorated
with its sort keys. -/
def mapped (m : Mode) (rows : List Record) : List Obj :=
  rows.map (decorate (primaryKey m) (secondaryKey m))

/-- The array named sorted in the handler: the decorated rows after the
stable sort under the comparator. -/
def sorted (m : Mode) (rows : List Record) : List Obj :=
  List.insertionSort sortLE (mapped m rows)

/-- The array named top5 in the handler: first five sorted rows with the
transient fields stripped. -/
def top5 (m : Mode) (rows : List Record) : List Obj :=
  ((sorted m rows).take 5).map strip

/-- The rank operation of the specification is exactly the handler's
top5 pipeline. -/
def rank (m : Mode) (rows : List Record) : List Obj := top5 m rows

/-- A successful JSON response of GET /api/top-characters. -/
structure TopOk where
  rows : List Obj
  type : String
  sortFieldPrimary : String
  sortFieldSecondary : String
deriving DecidableEq

/-- Outcome of the GET /api/top-characters handler, with the data fetch
abstracted into a parameter: a 400 client error, or the ranked payload. -/
inductive TopResult where
  | badRequest
  | ok (resp : TopOk)
deriving DecidableEq

/-- The mode-string validation at the top of the handler. -/
def isValidType (t : String) : Bool :=
  ["magic", "physical", "value"].contains t

/-- The chained conditional dispatch of the handler, reached only after
validation; every string other than magic and physical falls into the
value branch there. -/
def modeOfType (t : String) : Mode :=
  if t == "magic" then .magic
  else if t == "physical" then .physical
  else .value

/-- The GET /api/top-characters handler: reject a missing or invalid
type query parameter with a 400 before the field dispatch and before the
rows (the fetched CSV data) are consulted; otherwise rank and echo the
mode and the two sort field names. -/
def handleTopCharacters (type? : Option String) (rows : List Record) : TopResult :=
  match type? with
  | none => .badRequest
  | some t =>
    if !(isValidType t) then .badRequest
    else
      let m := modeOfType t
      .ok ⟨rank m rows, t, primaryKey m, secondaryKey m⟩

/-- Recomputed sort key of an output record, used to state the ordering
of the output: the same coercion the handler applies, read off an
object. -/
def keyOf (o : Obj) (k : String) : ℚ :=
  match Obj.get? o k with
  | none => 0
  | some (JVal.str s) => parseOrZero (some s)
  | some (JVal.num q) => q

/-- Two-level descending order on output records under a mode: primary
keys weakly decrease, and on primary ties secondary keys weakly
decrease. -/
def keyLex (pk sk : String) (a b : Obj) : Prop :=
  keyOf b pk ≤ keyOf a pk ∧ (keyOf a pk = keyOf b pk → keyOf b sk ≤ keyOf a sk)

/-! Helper lemmas about the object operations. -/

theorem get?_replaceField_self (k : String) (v : JVal) :
    ∀ o : Obj, containsKey o k = true → Obj.get? (replaceField o k v) k = some v := by
  intro o
  induction o with
  | nil => intro h; simp [containsKey] at h
  | cons p t ih =>
    intro h
    by_cases hp : p.1 = k
    · simp [replaceField, Obj.get?, hp]
    · have ht : containsKey t k = true := by
        rcases List.any_eq_true.mp h with ⟨q, hq, hqk⟩
        rcases List.mem_cons.mp hq with rfl | hqt
        · exact absurd (by simpa using hqk) hp
        · exact List.any_eq_true.mpr ⟨q, hqt, hqk⟩
      simpa [replaceField, Obj.get?, hp] using ih ht

theorem get?_append_not_contains (k : String) (v : JVal) :
    ∀ o : Obj, containsKey o k = false → Obj.get? (o ++ [(k, v)]) k = some v := by
  intro o
  induction o with
  | nil => intro _; simp [Obj.get?]
  | cons p t ih =>
    intro h
    simp only [containsKey, List.any_cons, Bool.or_eq_false_iff] at h
    have hp : ¬ p.1 = k := by simpa using h.1
    simpa [Obj.get?, hp] using ih h.2

theorem get?_setField_self (o : Obj) (k : String) (v : JVal) :
    Obj.get? (setField o k v) k = some v := by
  unfold setField
  by_cases h : containsKey o k = true
  · simpa [h] using get?_replaceField_self k v o h
  · have h0 : containsKey o k = false := by simpa using h
    simpa [h0] using get?_append_not_contains k v o h0

theorem get?_replaceField_ne (k k' : String) (v : JVal) (hkk : k' ≠ k) :
    ∀ o : Obj, Obj.get? (replaceField o k v) k' = Obj.get? o k' := by
  intro o
  induction o with
  | nil => rfl
  | cons p t ih =>
    by_cases hp : p.1 = k
    · simp [replaceField, Obj.get?, hp, Ne.symm hkk, ih]
    · by_cases hp' : p.1 = k'
      · simp [replaceField, Obj.get?, hp, hp', hkk]
      · simp [replaceField, Obj.get?, hp, hp', ih]

theorem get?_append_single_ne (k k' : String) (v : JVal) (hkk : k' ≠ k) :
    ∀ o : Obj, Obj.get? (o ++ [(k, v)]) k' = Obj.get? o k' := by
  intro o
  induction o with
  | nil => simp [Obj.get?, Ne.symm hkk]
  | cons p t ih =>
    by_cases hp' : p.1 = k'
    · simp [Obj.get?, hp']
    · simp [Obj.get?, hp', ih]

theorem get?_setField_ne (o : Obj) (k k' : String) (v : JVal) (hkk : k' ≠ k) :
    Obj.get? (setField o k v) k' = Obj.get? o k' := by
  unfold setField
  by_cases h : containsKey o k = true
  · simpa [h] using get?_replaceField_ne k k' v hkk o
  · have h0 : containsKey o k = false := by simpa using h
    simpa [h0] using get?_append_single_ne k k' v hkk o

theorem get?_strip (o : Obj) (k : String) (h1 : k ≠ "__primary") (h2 : k ≠ "__secondary") :
    Obj.get? (strip o) k = Obj.get? o k := by
  induction o with
  | nil => rfl
  | cons p t ih =>
    by_cases hp : p.1 = k
    · have hkeep : (!(p.1 == "__primary") && !(p.1 == "__secondary")) = true := by
        simp [hp, h1, h2]
      simp [strip, List.filter_cons, hkeep, Obj.get?, hp, h1, h2]
    · by_cases hkeep : (!(p.1 == "__primary") && !(p.1 == "__secondary")) = true
      · simpa [strip, List.filter_cons, hkeep, Obj.get?, hp] using ih
      · have hdrop : (!(p.1 == "__primary") && !(p.1 == "__secondary")) = false := by
          simpa using hkeep
        simpa [strip, List.filter_cons, hdrop, Obj.get?, hp] using ih

theorem get?_strip_primary (o : Obj) : Obj.get? (strip o) "__primary" = none := by
  induction o with
  | nil => rfl
  | cons p t ih =>
    by_cases hkeep : (!(p.1 == "__primary") && !(p.1 == "__secondary")) = true
    · have hp : ¬ p.1 = "__primary" := by
        intro hp
        simp [hp] at hkeep
      simpa [strip, List.filter_cons, hkeep, Obj.get?, hp] using ih
    · have hdrop : (!(p.1 == "__primary") && !(p.1 == "__secondary")) = false := by
        simpa using hkeep
      simpa [strip, List.filter_cons, hdrop] using ih

theorem get?_strip_secondary (o : Obj) : Obj.get? (strip o) "__secondary" = none := by
  induction o with
  | nil => rfl
  | cons p t ih =>
    by_cases hkeep : (!(p.1 == "__primary") && !(p.1 == "__secondary")) = true
    · have hp : ¬ p.1 = "__secondary" := by
        intro hp
        simp [hp] at hkeep
      simpa [strip, List.filter_cons, hkeep, Obj.get?, hp] using ih
    · have hdrop : (!(p.1 == "__primary") && !(p.1 == "__secondary")) = false := by
        simpa using hkeep
      simpa [strip, List.filter_cons, hdrop] using ih

theorem get?_toObj (r : Record) (k : String) :
    Obj.get? (toObj r) k = (Record.get? r k).map JVal.str := by
  induction r with
  | nil => rfl
  | cons p t ih =>
    by_cases hp : p.1 = k
    · simp [toObj, Obj.get?, Record.get?, hp]
    · simpa [toObj, Obj.get?, Record.get?, hp] using ih

theorem numAt_decorate_primary (pk sk : String) (row : Record) :
    numAt (decorate pk sk row) "__primary" = parseOrZero (Record.get? row pk) := by
  unfold decorate numAt
  rw [get?_setField_ne _ _ _ _ (by decide), get?_setField_self]

theorem numAt_decorate_secondary (pk sk : String) (row : Record) :
    numAt (decorate pk sk row) "__secondary" = parseOrZero (Record.get? row sk) := by
  unfold decorate numAt
  rw [get?_setField_self]

theorem keyOf_toObj (r : Record) (k : String) :
    keyOf (toObj r) k = parseOrZero (Record.get? r k) := by
  unfold keyOf
  rw [get?_toObj]
  cases h : Record.get? r k <;> simp [parseOrZero]

theorem keyOf_strip_decorate (pk sk k : String) (row : Record)
    (h1 : k ≠ "__primary") (h2 : k ≠ "__secondary") :
    keyOf (strip (decorate pk sk row)) k = parseOrZero (Record.get? row k) := by
  unfold keyOf
  rw [get?_strip _ _ h1 h2]
  unfold decorate
  rw [get?_setField_ne _ _ _ _ h2, get?_setField_ne _ _ _ _ h1, get?_toObj]
  cases h : Record.get? row k <;> simp [parseOrZero]

theorem strip_cons_of_keep (p : String × JVal) (t : Obj)
    (h : (!(p.1 == "__primary") && !(p.1 == "__secondary")) = true) :
    strip (p :: t) = p :: strip t := by
  simp [strip, List.filter_cons, h]

theorem strip_cons_of_drop (p : String × JVal) (t : Obj)
    (h : (!(p.1 == "__primary") && !(p.1 == "__secondary")) = false) :
    strip (p :: t) = strip t := by
  simp only [strip, List.filter_cons, h]
  simp

theorem strip_replaceField (k : String) (v : JVal)
    (hk : k = "__primary" ∨ k = "__secondary") :
    ∀ o : Obj, strip (replaceField o k v) = strip o := by
  have hd1 : (!((k : String) == "__primary") && !(k == "__secondary")) = false := by
    rcases hk with rfl | rfl <;> simp
  intro o
  induction o with
  | nil => rfl
  | cons p t ih =>
    show strip ((if p.1 == k then (k, v) else p) :: replaceField t k v) = strip (p :: t)
    by_cases hp : p.1 = k
    · rw [if_pos (by simpa using hp)]
      rw [strip_cons_of_drop (k, v) _ hd1,
        strip_cons_of_drop p _ (by rw [show p.1 = k from hp]; exact hd1)]
      exact ih
    · rw [if_neg (by simpa using hp)]
      by_cases hkeep : (!(p.1 == "__primary") && !(p.1 == "__secondary")) = true
      · rw [strip_cons_of_keep p _ hkeep, strip_cons_of_keep p _ hkeep, ih]
      · have hdrop : (!(p.1 == "__primary") && !(p.1 == "__secondary")) = false := by
          simpa using hkeep
        rw [strip_cons_of_drop p _ hdrop, strip_cons_of_drop p _ hdrop]
        exact ih

theorem strip_append_single (k : String) (v : JVal)
    (hk : k = "__primary" ∨ k = "__secondary") (o : Obj) :
    strip (o ++ [(k, v)]) = strip o := by
  have hd1 : (!((k : String) == "__primary") && !(k == "__secondary")) = false := by
    rcases hk with rfl | rfl <;> simp
  simp [strip, List.filter_append, hd1]

theorem strip_setField (o : Obj) (k : String) (v : JVal)
    (hk : k = "__primary" ∨ k = "__secondary") :
    strip (setField o k v) = strip o := by
  unfold setField
  by_cases h : containsKey o k = true
  · simpa [h] using strip_replaceField k v hk o
  · have h0 : containsKey o k = false := by simpa using h
    simpa [h0] using strip_append_single k v hk o

theorem strip_toObj (r : Record)
    (h : ∀ p ∈ r, p.1 ≠ "__primary" ∧ p.1 ≠ "__secondary") :
    strip (toObj r) = toObj r := by
  apply List.filter_eq_self.mpr
  intro a ha
  rcases List.mem_map.mp ha with ⟨p, hp, rfl⟩
  simp [(h p hp).1, (h p hp).2]

theorem strip_decorate (pk sk : String) (row : Record)
    (h : ∀ p ∈ row, p.1 ≠ "__primary" ∧ p.1 ≠ "__secondary") :
    strip (decorate pk sk row) = toObj row := by
  unfold decorate
  rw [strip_setField _ _ _ (Or.inr rfl), strip_setField _ _ _ (Or.inl rfl), strip_toObj _ h]

theorem sortLE_iff (a b : Obj) :
    sortLE a b ↔ (numAt b "__primary" < numAt a "__primary" ∨
      (numAt b "__primary" = numAt a "__primary" ∧
        numAt b "__secondary" ≤ numAt a "__secondary")) := by
  unfold sortLE jsCmp
  by_cases h : numAt b "__primary" = numAt a "__primary"
  · simp [h, sub_nonpos]
  · rw [if_pos h, sub_nonpos]
    constructor
    · intro hle
      exact Or.inl (lt_of_le_of_ne hle h)
    · rintro (hlt | ⟨heq, _⟩)
      · exact le_of_lt hlt
      · exact absurd heq h

theorem sortLE_total : IsTotal Obj sortLE := by
  constructor
  intro a b
  rw [sortLE_iff, sortLE_iff]
  rcases lt_trichotomy (numAt a "__primary") (numAt b "__primary") with h | h | h
  · exact Or.inr (Or.inl h)
  · rcases le_total (numAt b "__secondary") (numAt a "__secondary") with hs | hs
    · exact Or.inl (Or.inr ⟨h.symm, hs⟩)
    · exact Or.inr (Or.inr ⟨h, hs⟩)
  · exact Or.inl (Or.inl h)

theorem sortLE_trans : IsTrans Obj sortLE := by
  constructor
  intro a b c hab hbc
  rw [sortLE_iff] at hab hbc ⊢
  rcases hab with h1 | ⟨h1, h1s⟩ <;> rcases hbc with h2 | ⟨h2, h2s⟩
  · exact Or.inl (h2.trans h1)
  · exact Or.inl (lt_of_eq_of_lt h2 h1)
  · exact Or.inl (lt_of_lt_of_eq h2 h1)
  · exact Or.inr ⟨h2.trans h1, h2s.trans h1s⟩

theorem pair_sublist_of_lt {α : Type} :
    ∀ (l : List α) (i j : ℕ) (hi : i < l.length) (hj : j < l.length),
      i < j → [l.get ⟨i, hi⟩, l.get ⟨j, hj⟩] <+ l := by
  intro l
  induction l with
  | nil => intro i j hi; exact absurd hi (by simp)
  | cons a t ih =>
    intro i j hi hj hij
    cases i with
    | zero =>
      cases j with
      | zero => exact absurd hij (by omega)
      | succ j' =>
        have hj' : j' < t.length := by simpa using hj
        simp only [List.get_cons_zero, List.get_cons_succ]
        exact List.Sublist.cons₂ a (List.singleton_sublist.mpr (t.get_mem j' hj'))
    | succ i' =>
      cases j with
      | zero => exact absurd hij (by omega)
      | succ j' =>
        have hi' : i' < t.length := by simpa using hi
        have hj' : j' < t.length := by simpa using hj
        simpa using List.Sublist.cons a (ih i' j' hi' hj' (by omega))

theorem mem_take_sorted (m : Mode) (rows : List Record) (x : Obj)
    (hx : x ∈ (sorted m rows).take 5) :
    ∃ r ∈ rows, x = decorate (primaryKey m) (secondaryKey m) r := by
  have h1 : x ∈ sorted m rows := List.mem_of_mem_take hx
  have h2 : x ∈ mapped m rows :=
    ((List.perm_insertionSort sortLE (mapped m rows)).mem_iff).mp h1
  rcases List.mem_map.mp h2 with ⟨r, hr, rfl⟩
  exact ⟨r, hr, rfl⟩

theorem primaryKey_not_reserved (m : Mode) :
    primaryKey m ≠ "__primary" ∧ primaryKey m ≠ "__secondary" := by
  cases m <;> exact ⟨by decide, by decide⟩

theorem secondaryKey_not_reserved (m : Mode) :
    secondaryKey m ≠ "__primary" ∧ secondaryKey m ≠ "__secondary" := by
  cases m <;> exact ⟨by decide, by decide⟩

theorem get?_ne_none_of_key_mem (o : Obj) (k : String)
    (h : ∃ p ∈ o, p.1 = k) : Obj.get? o k ≠ none := by
  induction o with
  | nil =>
    rcases h with ⟨p, hp, _⟩
    simp at hp
  | cons q t ih =>
    rcases h with ⟨p, hp, hk⟩
    rcases List.mem_cons.mp hp with rfl | hpt
    · simp [Obj.get?, hk]
    · by_cases hq : q.1 = k
      · simp [Obj.get?, hq]
      · simpa [Obj.get?, hq] using ih ⟨p, hpt, hk⟩

theorem length_sorted (m : Mode) (rows : List Record) :
    (sorted m rows).length = rows.length := by
  show (List.insertionSort sortLE (mapped m rows)).length = rows.length
  rw [List.length_insertionSort]
  simp [mapped]

/-! Theorems settling the claims. -/

/-- C2: for every input record list and every mode the ranking output
length is exactly min 5 (input length), and in particular the empty
input gives the empty output. -/
theorem c2_output_length (m : Mode) (rows : List Record) :
    (rank m rows).length = min 5 rows.length ∧ rank m [] = [] := by
  refine ⟨?_, rfl⟩
  show (((sorted m rows).take 5).map strip).length = min 5 rows.length
  rw [List.length_map, List.length_take, length_sorted]

/-- C4: the mode-to-field dispatch is exactly the fixed table of the
handler (magic: magic-attack then value; physical: physical-attack then
value; value: value then magic-attack), and the handler echoes exactly
these field names. -/
theorem c4_mode_field_table :
    primaryKey Mode.magic = MAGIC_KEY ∧ secondaryKey Mode.magic = VALUE_KEY ∧
    primaryKey Mode.physical = PHYSICAL_KEY ∧ secondaryKey Mode.physical = VALUE_KEY ∧
    primaryKey Mode.value = VALUE_KEY ∧ secondaryKey Mode.value = MAGIC_KEY ∧
    (∀ rows : List Record, handleTopCharacters (some "magic") rows =
      TopResult.ok ⟨rank Mode.magic rows, "magic", MAGIC_KEY, VALUE_KEY⟩) ∧
    (∀ rows : List Record, handleTopCharacters (some "physical") rows =
      TopResult.ok ⟨rank Mode.physical rows, "physical", PHYSICAL_KEY, VALUE_KEY⟩) ∧
    (∀ rows : List Record, handleTopCharacters (some "value") rows =
      TopResult.ok ⟨rank Mode.value rows, "value", VALUE_KEY, MAGIC_KEY⟩) :=
  ⟨rfl, rfl, rfl, rfl, rfl, rfl, fun _ => rfl, fun _ => rfl, fun _ => rfl⟩

/-- C8: a missing type parameter, or one outside magic, physical and
value, is rejected with the 400 client error, uniformly in the fetched
data; the ranking pipeline is never entered with an invalid mode. -/
theorem c8_invalid_mode_rejected (type? : Option String)
    (h : ∀ t, type? = some t → isValidType t = false) :
    ∀ rows : List Record, handleTopCharacters type? rows = TopResult.badRequest := by
  intro rows
  cases type? with
  | none => rfl
  | some t =>
    have ht := h t rfl
    simp [handleTopCharacters, ht]

/-- Witness for C8 at the concrete invalid mode string foo. -/
theorem c8_invalid_mode_rejected_witness :
    handleTopCharacters (some "foo") [[("魔法攻擊", "3")]] = TopResult.badRequest :=
  c8_invalid_mode_rejected (some "foo")
    (by
      intro t ht
      injection ht with h
      rw [← h]
      decide)
    [[("魔法攻擊", "3")]]

/-- C3: the sort keys are the parseFloat coercions of the selected
fields; a missing field or a string with no parsable number gives key
exactly 0, and such a record still counts towards the output like any
other (nothing is excluded, nothing throws: the pipeline is total). -/
theorem c3_unparsable_zero (m : Mode) (r : Record) (rows : List Record)
    (hp : ∀ s, Record.get? r (primaryKey m) = some s → parseFloat s = none)
    (hs : ∀ s, Record.get? r (secondaryKey m) = some s → parseFloat s = none) :
    numAt (decorate (primaryKey m) (secondaryKey m) r) "__primary" = 0 ∧
    numAt (decorate (primaryKey m) (secondaryKey m) r) "__secondary" = 0 ∧
    (rank m (r :: rows)).length = min 5 (rows.length + 1) := by
  refine ⟨?_, ?_, ?_⟩
  · rw [numAt_decorate_primary]
    cases h : Record.get? r (primaryKey m) with
    | none => rfl
    | some s => simp [parseOrZero, hp s h]
  · rw [numAt_decorate_secondary]
    cases h : Record.get? r (secondaryKey m) with
    | none => rfl
    | some s => simp [parseOrZero, hs s h]
  · show (((sorted m (r :: rows)).take 5).map strip).length = min 5 (rows.length + 1)
    rw [List.length_map, List.length_take, length_sorted]
    rfl

/-- Witness for C3: a magic-attack value with no numeric prefix and an
absent value field both give key 0, and the record is still ranked. -/
theorem c3_unparsable_zero_witness :
    numAt (decorate (primaryKey Mode.magic) (secondaryKey Mode.magic)
      [("魔法攻擊", "abc")]) "__primary" = 0 ∧
    numAt (decorate (primaryKey Mode.magic) (secondaryKey Mode.magic)
      [("魔法攻擊", "abc")]) "__secondary" = 0 ∧
    (rank Mode.magic [[("魔法攻擊", "abc")]]).length = min 5 1 :=
  c3_unparsable_zero Mode.magic [("魔法攻擊", "abc")] []
    (by
      intro s hs
      have hget : Record.get? [("魔法攻擊", "abc")] (primaryKey Mode.magic) = some "abc" := rfl
      rw [hget] at hs
      injection hs with h
      rw [← h]
      decide)
    (by
      intro s hs
      have hget : Record.get? [("魔法攻擊", "abc")] (secondaryKey Mode.magic) = none := rfl
      rw [hget] at hs
      exact Option.noConfusion hs)

/-- C10: a record that already owns a field named __primary or
__secondary has it overwritten during decoration and stripped at the
end, so no output record ever carries such a field and the ranked copy
of such a record is not an unmodified copy of its field mapping. -/
theorem c10_reserved_field_dropped (m : Mode) (r : Record)
    (rows : List Record) (o : Obj) (ho : o ∈ rank m rows)
    (h : (∃ p ∈ r, p.1 = "__primary") ∨ (∃ p ∈ r, p.1 = "__secondary")) :
    (Obj.get? o "__primary" = none ∧ Obj.get? o "__secondary" = none) ∧
    strip (decorate (primaryKey m) (secondaryKey m) r) ≠ toObj r := by
  constructor
  · rcases List.mem_map.mp ho with ⟨x, _, rfl⟩
    exact ⟨get?_strip_primary x, get?_strip_secondary x⟩
  · intro heq
    rcases h with ⟨p, hp, hk⟩ | ⟨p, hp, hk⟩
    · have h1 : Obj.get? (toObj r) "__primary" ≠ none :=
        get?_ne_none_of_key_mem _ _ ⟨(p.1, JVal.str p.2), List.mem_map.mpr ⟨p, hp, rfl⟩, hk⟩
      exact h1 (heq ▸ get?_strip_primary (decorate (primaryKey m) (secondaryKey m) r))
    · have h1 : Obj.get? (toObj r) "__secondary" ≠ none :=
        get?_ne_none_of_key_mem _ _ ⟨(p.1, JVal.str p.2), List.mem_map.mpr ⟨p, hp, rfl⟩, hk⟩
      exact h1 (heq ▸ get?_strip_secondary (decorate (primaryKey m) (secondaryKey m) r))

/-- Witness for C10 at a record owning a literal __primary field. -/
theorem c10_reserved_field_dropped_witness :
    ((Obj.get? ([] : Obj) "__primary" = none ∧ Obj.get? ([] : Obj) "__secondary" = none) ∧
    strip (decorate (primaryKey Mode.magic) (secondaryKey Mode.magic) [("__primary", "x")]) ≠
      toObj [("__primary", "x")]) :=
  c10_reserved_field_dropped Mode.magic [("__primary", "x")] [[("__primary", "x")]] []
    (by decide)
    (Or.inl ⟨("__primary", "x"), by decide, rfl⟩)

/-- C1: the ranking output is two-level descending: adjacent output
records have weakly decreasing primary keys and, where the primary keys
are equal, weakly decreasing secondary keys. -/
theorem c1_output_sorted (m : Mode) (rows : List Record) :
    (rank m rows).Chain' (keyLex (primaryKey m) (secondaryKey m)) := by
  have hs : (sorted m rows).Pairwise sortLE :=
    @List.sorted_insertionSort Obj sortLE _ sortLE_total sortLE_trans (mapped m rows)
  have ht : ((sorted m rows).take 5).Pairwise sortLE :=
    hs.sublist (List.take_sublist 5 _)
  have h2 : ((sorted m rows).take 5).Pairwise
      (fun a b => keyLex (primaryKey m) (secondaryKey m) (strip a) (strip b)) := by
    refine List.Pairwise.imp_of_mem ?_ ht
    intro a b ha hb hab
    rcases mem_take_sorted m rows a ha with ⟨ra, _, rfl⟩
    rcases mem_take_sorted m rows b hb with ⟨rb, _, rfl⟩
    rw [sortLE_iff, numAt_decorate_primary, numAt_decorate_primary,
      numAt_decorate_secondary, numAt_decorate_secondary] at hab
    unfold keyLex
    rw [keyOf_strip_decorate _ _ _ ra (primaryKey_not_reserved m).1 (primaryKey_not_reserved m).2,
      keyOf_strip_decorate _ _ _ rb (primaryKey_not_reserved m).1 (primaryKey_not_reserved m).2,
      keyOf_strip_decorate _ _ _ ra (secondaryKey_not_reserved m).1 (secondaryKey_not_reserved m).2,
      keyOf_strip_decorate _ _ _ rb (secondaryKey_not_reserved m).1 (secondaryKey_not_reserved m).2]
    constructor
    · rcases hab with h | ⟨h, _⟩
      · exact le_of_lt h
      · exact le_of_eq h
    · intro heq
      rcases hab with h | ⟨_, h2⟩
      · exact absurd heq (ne_of_gt h)
      · exact h2
  have h3 : (rank m rows).Pairwise (keyLex (primaryKey m) (secondaryKey m)) := by
    show (((sorted m rows).take 5).map strip).Pairwise _
    exact List.pairwise_map.mpr h2
  exact h3.chain'

/-- C5 counterexample: a record owning a literal __primary field loses
it in the output, so its output record is not an unmodified copy of its
field mapping. -/
theorem c5_copies_counterexample :
    rank Mode.magic [[("__primary", "x")]] = [[]] ∧
    ¬ ∃ r ∈ [[("__primary", "x")]], ([] : Obj) = toObj r := by
  exact ⟨by decide, by decide⟩

/-- C5 amended: provided no input record owns a field named __primary
or __secondary, every output record of the ranking is an unmodified
copy (same fields, same string values, same field order) of one of the
input records. -/
theorem c5_output_copies (m : Mode) (rows : List Record) (o : Obj)
    (ho : o ∈ rank m rows)
    (h : ∀ r ∈ rows, ∀ p ∈ r, p.1 ≠ "__primary" ∧ p.1 ≠ "__secondary") :
    ∃ r ∈ rows, o = toObj r := by
  rcases List.mem_map.mp ho with ⟨x, hx, rfl⟩
  rcases mem_take_sorted m rows x hx with ⟨r, hr, rfl⟩
  exact ⟨r, hr, strip_decorate _ _ _ (h r hr)⟩

/-- Witness for the amended C5 at a one-record input. -/
theorem c5_output_copies_witness :
    ∃ r ∈ [[("魔法攻擊", "3")]], toObj [("魔法攻擊", "3")] = toObj r :=
  c5_output_copies Mode.magic [[("魔法攻擊", "3")]] (toObj [("魔法攻擊", "3")])
    (by decide) (by decide)

/-- C6: stability on full-key ties: two input rows at positions i < j
whose primary keys agree and whose secondary keys agree keep that order
in the sorted sequence, of which the ranking output is the stripped
five-element prefix. -/
theorem c6_stable_ties (m : Mode) (rows : List Record) (i j : ℕ)
    (hi : i < rows.length) (hj : j < rows.length) (hij : i < j)
    (hp : parseOrZero (Record.get? (rows.get ⟨i, hi⟩) (primaryKey m)) =
      parseOrZero (Record.get? (rows.get ⟨j, hj⟩) (primaryKey m)))
    (hs : parseOrZero (Record.get? (rows.get ⟨i, hi⟩) (secondaryKey m)) =
      parseOrZero (Record.get? (rows.get ⟨j, hj⟩) (secondaryKey m))) :
    [decorate (primaryKey m) (secondaryKey m) (rows.get ⟨i, hi⟩),
      decorate (primaryKey m) (secondaryKey m) (rows.get ⟨j, hj⟩)] <+ sorted m rows ∧
    rank m rows = ((sorted m rows).take 5).map strip := by
  refine ⟨?_, rfl⟩
  have hpair : [rows.get ⟨i, hi⟩, rows.get ⟨j, hj⟩] <+ rows :=
    pair_sublist_of_lt rows i j hi hj hij
  have hmap : [decorate (primaryKey m) (secondaryKey m) (rows.get ⟨i, hi⟩),
      decorate (primaryKey m) (secondaryKey m) (rows.get ⟨j, hj⟩)] <+ mapped m rows := by
    simpa [mapped] using hpair.map (decorate (primaryKey m) (secondaryKey m))
  have hle : sortLE (decorate (primaryKey m) (secondaryKey m) (rows.get ⟨i, hi⟩))
      (decorate (primaryKey m) (secondaryKey m) (rows.get ⟨j, hj⟩)) := by
    rw [sortLE_iff, numAt_decorate_primary, numAt_decorate_primary,
      numAt_decorate_secondary, numAt_decorate_secondary]
    exact Or.inr ⟨hp.symm, le_of_eq hs.symm⟩
  exact List.pair_sublist_insertionSort hle hmap

/-- Witness for C6 at two fully tied rows. -/
theorem c6_stable_ties_witness :
    [decorate (primaryKey Mode.magic) (secondaryKey Mode.magic)
        [("魔法攻擊", "5"), ("價值", "2")],
      decorate (primaryKey Mode.magic) (secondaryKey Mode.magic)
        [("魔法攻擊", "5"), ("價值", "2"), ("ID", "b")]] <+
      sorted Mode.magic
        [[("魔法攻擊", "5"), ("價值", "2")], [("魔法攻擊", "5"), ("價值", "2"), ("ID", "b")]] ∧
    rank Mode.magic
        [[("魔法攻擊", "5"), ("價值", "2")], [("魔法攻擊", "5"), ("價值", "2"), ("ID", "b")]] =
      ((sorted Mode.magic
        [[("魔法攻擊", "5"), ("價值", "2")], [("魔法攻擊", "5"), ("價值", "2"), ("ID", "b")]]).take 5).map strip :=
  c6_stable_ties Mode.magic
    [[("魔法攻擊", "5"), ("價值", "2")], [("魔法攻擊", "5"), ("價值", "2"), ("ID", "b")]]
    0 1 (by decide) (by decide) (by decide) rfl rfl

/-- C7 counterexample: for a record owning a literal __primary field,
the ranking output is not even a sub-multiset of the input, because the
field was dropped from the output record. -/
theorem c7_subperm_counterexample :
    ¬ (rank Mode.magic [[("__primary", "x")]] <+~ [toObj [("__primary", "x")]]) := by
  decide

/-- C7 amended: provided no input record owns a field named __primary
or __secondary, the ranking output is a sub-multiset of the input
(every output record occurs among the input records, with multiplicity
respected), and an input of at most five records is returned whole, as
a permutation of the input. -/
theorem c7_subsequence_content (m : Mode) (rows : List Record)
    (h : ∀ r ∈ rows, ∀ p ∈ r, p.1 ≠ "__primary" ∧ p.1 ≠ "__secondary") :
    rank m rows <+~ rows.map toObj ∧
    (rows.length ≤ 5 → (rank m rows).Perm (rows.map toObj)) := by
  have hmapstrip : (mapped m rows).map strip = rows.map toObj := by
    show (rows.map (decorate (primaryKey m) (secondaryKey m))).map strip = rows.map toObj
    rw [List.map_map]
    apply List.map_congr_left
    intro r hr
    show strip (decorate (primaryKey m) (secondaryKey m) r) = toObj r
    exact strip_decorate _ _ _ (h r hr)
  have hperm : ((sorted m rows).map strip).Perm (rows.map toObj) := by
    rw [← hmapstrip]
    exact (List.perm_insertionSort sortLE (mapped m rows)).map strip
  constructor
  · have hsub : rank m rows <+ (sorted m rows).map strip :=
      (List.take_sublist 5 (sorted m rows)).map strip
    exact hsub.subperm.trans hperm.subperm
  · intro hlen
    have hslen : (sorted m rows).length ≤ 5 := by
      rw [length_sorted]
      exact hlen
    show (((sorted m rows).take 5).map strip).Perm (rows.map toObj)
    rw [List.take_of_length_le hslen]
    exact hperm

theorem takeWhile_append_all {p : Char → Bool} :
    ∀ (xs ys : List Char), xs.all p = true →
      (ys.head?).all (fun c => !(p c)) = true →
      (xs ++ ys).takeWhile p = xs ∧ (xs ++ ys).dropWhile p = ys := by
  intro xs
  induction xs with
  | nil =>
    intro ys _ hys
    cases ys with
    | nil => exact ⟨rfl, rfl⟩
    | cons c r =>
      have hc : p c = false := by simpa using hys
      simp [List.takeWhile_cons, List.dropWhile_cons, hc]
  | cons x xs ih =>
    intro ys hall hys
    have h' := hall
    simp only [List.all_cons, Bool.and_eq_true] at h'
    have hrec := ih ys h'.2 hys
    simp [List.takeWhile_cons, List.dropWhile_cons, h'.1, hrec.1, hrec.2]

theorem digit_beq_false (c x : Char) (h : isDigitChar c = true)
    (hx : isDigitChar x = false) : (c == x) = false := by
  refine beq_eq_false_iff_ne.mpr ?_
  rintro rfl
  simp [h] at hx

theorem not_space_of_digit (c : Char) (h : isDigitChar c = true) :
    isSpaceChar c = false := by
  have hb : 48 ≤ c.toNat ∧ c.toNat ≤ 57 := by
    simpa [isDigitChar, Bool.and_eq_true] using h
  obtain ⟨h1, h2⟩ := hb
  simp only [isSpaceChar, Bool.or_eq_false_iff, beq_eq_false_iff_ne, ne_eq]
  omega

theorem parseOrZero_some_of_parse (s : String) (q : ℚ)
    (h : parseFloat s = some q) : parseOrZero (some s) = q := by
  show (match parseFloat s with | none => (0 : ℚ) | some q => q) = q
  rw [h]

theorem parseSigned_plus (r : List Char) :
    parseSigned ('+' :: r) = parseUnsigned r := rfl

theorem parseSigned_minus (r : List Char) :
    parseSigned ('-' :: r) = (parseUnsigned r).map (fun q => -q) := rfl

theorem parseSigned_no_sign (cs : List Char)
    (hm : headIs cs '-' = false) (hp : headIs cs '+' = false) :
    parseSigned cs = parseUnsigned cs := by
  unfold parseSigned
  rw [hm, hp]
  simp

theorem buildNum_no_dot (intd r1 : List Char)
    (hd : headIs r1 '.' = false) (hne : intd ≠ []) :
    buildNum intd r1 = some ((digitsVal intd : ℚ) * (10 : ℚ) ^ expPart r1) := by
  have h1 : intd.isEmpty = false := by
    cases intd with
    | nil => exact absurd rfl hne
    | cons a l => rfl
  unfold buildNum
  rw [hd]
  simp [h1]

theorem buildNum_dot (intd fracd u : List Char)
    (hfr : fracd.all isDigitChar = true)
    (hu : (u.head?).all (fun c => !(isDigitChar c)) = true)
    (hne : ¬(intd = [] ∧ fracd = [])) :
    buildNum intd ('.' :: (fracd ++ u)) =
      some (((digitsVal intd : ℚ) + (digitsVal fracd : ℚ) / (10 : ℚ) ^ fracd.length)
        * (10 : ℚ) ^ expPart u) := by
  have hsplit := takeWhile_append_all fracd u hfr hu
  have hcond : (intd.isEmpty && fracd.isEmpty) = false := by
    rcases Decidable.em (intd = []) with hi | hi
    · have hf : fracd ≠ [] := fun h => hne ⟨hi, h⟩
      have h2 : fracd.isEmpty = false := by
        cases fracd with
        | nil => exact absurd rfl hf
        | cons a l => rfl
      simp [h2]
    · have h2 : intd.isEmpty = false := by
        cases intd with
        | nil => exact absurd rfl hi
        | cons a l => rfl
      simp [h2]
  unfold buildNum
  rw [show headIs ('.' :: (fracd ++ u)) '.' = true from rfl,
    show ('.' :: (fracd ++ u)).tail = fracd ++ u from rfl,
    hsplit.1, hsplit.2, hcond]
  simp

/-- Any complete unsigned decimal literal (integer digits, optional dot
and fraction digits) followed by a tail that cannot extend its
significand parses to the literal's value scaled by the value of the
tail's leading exponent part (one when the tail carries no complete
exponent). -/
theorem parseUnsigned_literal (intd dotfrac u : List Char) (e : ℤ)
    (hint : intd.all isDigitChar = true)
    (hdot : dotfrac = [] ∨
      ∃ fracd, dotfrac = '.' :: fracd ∧ fracd.all isDigitChar = true)
    (hne : ¬(intd = [] ∧ dotfrac.tail = []))
    (hu : (u.head?).all (fun c => !(isDigitChar c)) = true)
    (hud : dotfrac = [] → headIs u '.' = false)
    (he : expPart u = e) :
    parseUnsigned (intd ++ (dotfrac ++ u)) =
      some (((digitsVal intd : ℚ) + fracVal dotfrac) * (10 : ℚ) ^ e) := by
  have hdu : ((dotfrac ++ u).head?).all (fun c => !(isDigitChar c)) = true := by
    rcases hdot with rfl | ⟨fracd, rfl, _⟩
    · simpa using hu
    · rfl
  have hsplit := takeWhile_append_all intd (dotfrac ++ u) hint hdu
  unfold parseUnsigned
  rw [hsplit.1, hsplit.2]
  rcases hdot with rfl | ⟨fracd, rfl, hfr⟩
  · rw [List.nil_append]
    have hintne : intd ≠ [] := fun h => hne ⟨h, rfl⟩
    rw [buildNum_no_dot intd u (hud rfl) hintne, he]
    have hz : fracVal ([] : List Char) = 0 := by
      simp [fracVal, digitsVal]
    rw [hz, add_zero]
  · rw [List.cons_append]
    have hnefr : ¬(intd = [] ∧ fracd = []) := by
      rintro ⟨h1, h2⟩
      exact hne ⟨h1, by simp [h2]⟩
    rw [buildNum_dot intd fracd u hfr hu hnefr, he]
    rw [show fracVal ('.' :: fracd) =
      (digitsVal fracd : ℚ) / (10 : ℚ) ^ fracd.length from rfl]

/-- The optional sign in front of a complete literal contributes its
sign factor to the parsed value. -/
theorem parseSigned_literal (sign intd dotfrac u : List Char) (e : ℤ)
    (hsign : sign = [] ∨ sign = ['+'] ∨ sign = ['-'])
    (hint : intd.all isDigitChar = true)
    (hdot : dotfrac = [] ∨
      ∃ fracd, dotfrac = '.' :: fracd ∧ fracd.all isDigitChar = true)
    (hne : ¬(intd = [] ∧ dotfrac.tail = []))
    (hu : (u.head?).all (fun c => !(isDigitChar c)) = true)
    (hud : dotfrac = [] → headIs u '.' = false)
    (he : expPart u = e) :
    parseSigned (sign ++ (intd ++ (dotfrac ++ u))) =
      some (signVal sign *
        (((digitsVal intd : ℚ) + fracVal dotfrac) * (10 : ℚ) ^ e)) := by
  have hun := parseUnsigned_literal intd dotfrac u e hint hdot hne hu hud he
  rcases hsign with rfl | rfl | rfl
  · rw [List.nil_append]
    have hm : headIs (intd ++ (dotfrac ++ u)) '-' = false := by
      cases intd with
      | cons d l =>
        have hd : isDigitChar d = true := by
          have h' := hint
          simp only [List.all_cons, Bool.and_eq_true] at h'
          exact h'.1
        simpa [headIs, List.cons_append] using digit_beq_false d '-' hd (by decide)
      | nil =>
        rcases hdot with rfl | ⟨fracd, rfl, _⟩
        · exact absurd ⟨rfl, rfl⟩ hne
        · rfl
    have hp : headIs (intd ++ (dotfrac ++ u)) '+' = false := by
      cases intd with
      | cons d l =>
        have hd : isDigitChar d = true := by
          have h' := hint
          simp only [List.all_cons, Bool.and_eq_true] at h'
          exact h'.1
        simpa [headIs, List.cons_append] using digit_beq_false d '+' hd (by decide)
      | nil =>
        rcases hdot with rfl | ⟨fracd, rfl, _⟩
        · exact absurd ⟨rfl, rfl⟩ hne
        · rfl
    rw [parseSigned_no_sign _ hm hp, hun,
      show signVal [] = 1 from rfl, one_mul]
  · rw [show (['+'] : List Char) ++ (intd ++ (dotfrac ++ u)) =
      '+' :: (intd ++ (dotfrac ++ u)) from rfl, parseSigned_plus, hun,
      show signVal ['+'] = 1 from rfl, one_mul]
  · rw [show (['-'] : List Char) ++ (intd ++ (dotfrac ++ u)) =
      '-' :: (intd ++ (dotfrac ++ u)) from rfl, parseSigned_minus, hun,
      show signVal ['-'] = -1 from rfl]
    simp

/-- C9: the zero coercion hits only strings without a parsable numeric
prefix.  A field value made of optional whitespace, an optional sign, a
significand of integer digits with an optional dot and fraction digits
(at least one digit in total), and then an arbitrary tail u that cannot
extend the significand (its first character is no digit, and no dot
when the significand had none) parses to the signed value of that
numeric prefix scaled by the tail's leading exponent value e (e is 0
for any tail that carries no complete exponent, such as x, ex or e+x),
and that value, not 0, becomes the record's primary sort key.  This
covers unsigned, signed, fractional and exponent prefixes, for example
12abc, the space-led 3.5x, -2x and 1e3x. -/
theorem c9_numeric_prefix_key (m : Mode) (ws sign intd dotfrac u : List Char) (e : ℤ)
    (hws : ws.all isSpaceChar = true)
    (hsign : sign = [] ∨ sign = ['+'] ∨ sign = ['-'])
    (hint : intd.all isDigitChar = true)
    (hdot : dotfrac = [] ∨
      ∃ fracd, dotfrac = '.' :: fracd ∧ fracd.all isDigitChar = true)
    (hne : ¬(intd = [] ∧ dotfrac.tail = []))
    (hu : (u.head?).all (fun c => !(isDigitChar c)) = true)
    (hud : dotfrac = [] → headIs u '.' = false)
    (he : expPart u = e) :
    parseFloat (String.mk (ws ++ (sign ++ (intd ++ (dotfrac ++ u))))) =
      some (signVal sign *
        (((digitsVal intd : ℚ) + fracVal dotfrac) * (10 : ℚ) ^ e)) ∧
    numAt (decorate (primaryKey m) (secondaryKey m)
        [(primaryKey m, String.mk (ws ++ (sign ++ (intd ++ (dotfrac ++ u)))))]) "__primary" =
      signVal sign * (((digitsVal intd : ℚ) + fracVal dotfrac) * (10 : ℚ) ^ e) := by
  have hrest : ((sign ++ (intd ++ (dotfrac ++ u))).head?).all
      (fun c => !(isSpaceChar c)) = true := by
    rcases hsign with rfl | rfl | rfl
    · rw [List.nil_append]
      cases intd with
      | cons d l =>
        have hd : isDigitChar d = true := by
          have h' := hint
          simp only [List.all_cons, Bool.and_eq_true] at h'
          exact h'.1
        simp [List.cons_append, not_space_of_digit d hd]
      | nil =>
        rcases hdot with rfl | ⟨fracd, rfl, _⟩
        · exact absurd ⟨rfl, rfl⟩ hne
        · rfl
    · rfl
    · rfl
  have hdrop : ((ws ++ (sign ++ (intd ++ (dotfrac ++ u)))).dropWhile isSpaceChar) =
      sign ++ (intd ++ (dotfrac ++ u)) :=
    (takeWhile_append_all ws _ hws hrest).2
  have hsig := parseSigned_literal sign intd dotfrac u e hsign hint hdot hne hu hud he
  have hval : parseFloat (String.mk (ws ++ (sign ++ (intd ++ (dotfrac ++ u))))) =
      some (signVal sign *
        (((digitsVal intd : ℚ) + fracVal dotfrac) * (10 : ℚ) ^ e)) := by
    unfold parseFloat
    rw [show (String.mk (ws ++ (sign ++ (intd ++ (dotfrac ++ u))))).toList =
      ws ++ (sign ++ (intd ++ (dotfrac ++ u))) from rfl, hdrop, hsig]
  refine ⟨hval, ?_⟩
  rw [numAt_decorate_primary]
  have hget : Record.get? [(primaryKey m, String.mk (ws ++ (sign ++ (intd ++ (dotfrac ++ u)))))]
      (primaryKey m) = some (String.mk (ws ++ (sign ++ (intd ++ (dotfrac ++ u))))) := by
    simp [Record.get?]
  rw [hget]
  exact parseOrZero_some_of_parse _ _ hval

/-- Witness for C9 at the fractional prefix string of one space, the
digit 3, a dot, the digit 5 and the trailing letter x. -/
theorem c9_numeric_prefix_key_witness :
    parseFloat (String.mk ([' '] ++ ([] ++ (['3'] ++ (['.', '5'] ++ ['x']))))) =
      some (signVal [] *
        (((digitsVal ['3'] : ℚ) + fracVal ['.', '5']) * (10 : ℚ) ^ (0 : ℤ))) ∧
    numAt (decorate (primaryKey Mode.magic) (secondaryKey Mode.magic)
        [(primaryKey Mode.magic, String.mk ([' '] ++ ([] ++ (['3'] ++ (['.', '5'] ++ ['x'])))))])
        "__primary" =
      signVal [] * (((digitsVal ['3'] : ℚ) + fracVal ['.', '5']) * (10 : ℚ) ^ (0 : ℤ)) :=
  c9_numeric_prefix_key Mode.magic [' '] [] ['3'] ['.', '5'] ['x'] 0
    (by decide) (Or.inl rfl) (by decide)
    (Or.inr ⟨['5'], rfl, by decide⟩)
    (by decide) (by decide) (by decide) (by decide)

/-- Witness for the amended C7 at a two-record input. -/
theorem c7_subsequence_content_witness :
    rank Mode.magic [[("魔法攻擊", "2")], [("魔法攻擊", "7")]] <+~
      [[("魔法攻擊", "2")], [("魔法攻擊", "7")]].map toObj ∧
    (rank Mode.magic [[("魔法攻擊", "2")], [("魔法攻擊", "7")]]).Perm
      ([[("魔法攻擊", "2")], [("魔法攻擊", "7")]].map toObj) :=
  ⟨(c7_subsequence_content Mode.magic [[("魔法攻擊", "2")], [("魔法攻擊", "7")]] (by decide)).1,
    (c7_subsequence_content Mode.magic [[("魔法攻擊", "2")], [("魔法攻擊", "7")]] (by decide)).2
      (by decide)⟩

end Norya
